import Mathlib

/-!
Verification of the streaming aggregation core of the kgx repository
(`kgx/graph_operations/meta_knowledge_graph.py` and `kgx/source/source.py`).

The Python code is shallowly embedded: every dictionary becomes an
association list that preserves insertion order (Python dicts are
insertion-ordered; `d[k] = v` on a fresh key appends, on a present key
updates in place), sets whose iteration order never matters are kept as
duplicate-free lists in insertion order, and class state is threaded
explicitly.  Code paths that raise an uncaught Python exception are
modelled with `Option` (`none` = the call raised).
-/

/-! ## Association lists standing for Python dicts -/

/-- `d[k]` lookup with `None` for a missing key (`k in d` = `isSome`). -/
def getKV [DecidableEq κ] : List (κ × β) → κ → Option β
  | [], _ => none
  | (k, v) :: r, q => if q = k then some v else getKV r q

/-- In-place update of the (first, hence unique for a dict) entry of key `q`;
a no-op when the key is absent. -/
def updKV [DecidableEq κ] : List (κ × β) → κ → (β → β) → List (κ × β)
  | [], _, _ => []
  | (k, v) :: r, q, f => if q = k then (k, f v) :: r else (k, v) :: updKV r q f

/-- `d.pop(q)`: drop the entry of key `q`. -/
def removeKV [DecidableEq κ] : List (κ × β) → κ → List (κ × β)
  | [], _ => []
  | (k, v) :: r, q => if q = k then r else (k, v) :: removeKV r q

/-- The Python idiom `if s in d: d[s] += 1 else: d[s] = 1` (equivalently
`if s not in d: d[s] = 0` followed by `d[s] += 1`). -/
def bumpKV [DecidableEq κ] (m : List (κ × Nat)) (k : κ) : List (κ × Nat) :=
  match getKV m k with
  | some _ => updKV m k (· + 1)
  | none => m ++ [(k, 1)]

/-- A dict-valued counter read off with default 0. -/
def cntKV [DecidableEq κ] (m : List (κ × Nat)) (k : κ) : Nat :=
  (getKV m k).getD 0

/-! ## The class-level category curie map

`MetaKnowledgeGraph.Category._category_curie_map` is a *class-level*
attribute (meta_knowledge_graph.py line 113): a single process-wide list
shared by every `MetaKnowledgeGraph` instance in the process.  It is
embedded as a `List String` value threaded through all operations in
program order; two instances of the same process hand the same list along. -/

/-- Effect of `Category.__init__` (lines 115-118) on the class-level map:
append the category identifier if it was never seen by *any* instance. -/
def registerCurie (m : List String) (c : String) : List String :=
  if c ∈ m then m else m ++ [c]

/-- `Category.get_cid` (line 124-125): `list.index` of the identifier in the
class-level map.  Python raises ValueError when the identifier is absent;
that cannot happen for a constructed `Category`, and the embedding returns
the list length there. -/
def idxOfStr : List String → String → Nat
  | [], _ => 0
  | s :: r, q => if q = s then 0 else idxOfStr r q + 1

/-- `Category.get_category_curie` (lines 127-129): positional lookup in the
class-level map.  Python raises IndexError out of range; the indices stored
in a node catalog are always in range, and the embedding returns "" there. -/
def curieOf (m : List String) (cid : Nat) : String :=
  m.getD cid ""

/-! ## Node-side statistics -/

/-- The `category_stats` dict of one `Category` object (lines 119-122). -/
structure CategoryData where
  idPrefixes : List String
  count : Nat
  count_by_source : List (String × Nat)
deriving DecidableEq, Repr

/-- `Category.__init__` statistics: empty prefix set, zero count,
`{'unknown': 0}` source tally. -/
def newCategoryData : CategoryData :=
  { idPrefixes := [], count := 0, count_by_source := [("unknown", 0)] }

/-- A node record's payload as far as `analyse_node` reads it: the
`category` value (absent key = `none`) and the `provided_by` value
(absent key = `none`). -/
structure NodeData where
  category : Option (List String)
  provided_by : Option (List String)
deriving DecidableEq, Repr

/-- Modelled from the spec: `PrefixManager.get_prefix` lives in
`kgx/prefix_manager.py`, which is not among the provided sources.  Per the
spec (§4.2 step 3 and the glossary) a CURIE is `prefix:local-identifier`
and the prefix set is "derived from the identifier's namespace prefix,
logging a WARNING if the node identifier has no extractable prefix": the
part before the first colon, with no colon or an empty part counting as
not extractable. -/
def curiePfxOf (n : String) : Option String :=
  let p := n.data.takeWhile (fun c => c ≠ ':')
  if p.length = n.data.length then none
  else if p.isEmpty then none
  else some p.asString

/-- `Category.analyse_node_category` (lines 142-157).  Returns the updated
statistics and the number of warning lines printed (0 or 1, for a node id
with no extractable prefix). -/
def analyse_node_category (n : String) (data : NodeData) (c : CategoryData) :
    CategoryData × Nat :=
  let c := { c with count := c.count + 1 }
  let pw : CategoryData × Nat :=
    match curiePfxOf n with
    | none => (c, 1)
    | some p =>
        (if p ∈ c.idPrefixes then c
         else { c with idPrefixes := c.idPrefixes ++ [p] }, 0)
  let c := pw.1
  let c :=
    match data.provided_by with
    | some srcs => { c with count_by_source := srcs.foldl bumpKV c.count_by_source }
    | none => { c with count_by_source := updKV c.count_by_source "unknown" (· + 1) }
  (c, pw.2)

/-! ## Edge-side statistics -/

/-- An edge record's payload as far as `analyse_edge` reads it.  `predicate`
and `relation` are accessed unconditionally by the source (lines 216 and
255), so they are fields of the record type; `provided_by` may be absent. -/
structure EdgeData where
  predicate : String
  relation : String
  provided_by : Option (List String)
deriving DecidableEq, Repr

/-- An association key: (subject category, predicate, object category). -/
abbrev Triple := String × String × String

/-- One value of `association_map` (lines 246-253).  The `relations` set is
kept as a duplicate-free list in insertion order. -/
structure AssocData where
  subject : String
  predicate : String
  object : String
  relations : List String
  count : Nat
  count_by_source : List (String × Nat)
deriving DecidableEq, Repr

/-- The freshly created association record of lines 246-253. -/
def newAssocData (t : Triple) : AssocData :=
  { subject := t.1, predicate := t.2.1, object := t.2.2,
    relations := [], count := 0, count_by_source := [("unknown", 0)] }

/-- Lines 255-266, the in-place mutation of one association record: add the
relation if new, bump the count and the provenance tally. -/
def bumpAssoc (d : EdgeData) (a : AssocData) : AssocData :=
  let a := if d.relation ∈ a.relations then a
           else { a with relations := a.relations ++ [d.relation] }
  let a := { a with count := a.count + 1 }
  match d.provided_by with
  | some srcs => { a with count_by_source := srcs.foldl bumpKV a.count_by_source }
  | none => { a with count_by_source := updKV a.count_by_source "unknown" (· + 1) }

/-- Lines 240-266 for one (subject-category, object-category) pair: create
the triple's record if absent (lines 245-253), then mutate it in place. -/
def bumpTriple (am : List (Triple × AssocData)) (t : Triple) (d : EdgeData) :
    List (Triple × AssocData) :=
  let am1 := if (getKV am t).isSome then am else am ++ [(t, newAssocData t)]
  updKV am1 t (bumpAssoc d)

/-! ## The MetaKnowledgeGraph instance state -/

/-- The cached, serialization-ready summary built by `get_graph_summary`
(lines 551-562): the `graph_stats` dict. -/
structure Summary where
  nodes : List (String × CategoryData)
  edges : List AssocData
  name : String
deriving DecidableEq, Repr

/-- The mutable per-instance attributes set in `__init__` (lines 76-94),
plus the count of warning lines the instance printed to its error log. -/
structure MetaKnowledgeGraph where
  name : String
  node_catalog : List (String × List Nat)
  node_stats : List (String × CategoryData)
  edge_record_count : Nat
  predicates : List (String × Nat)
  association_map : List (Triple × AssocData)
  edge_stats : List AssocData
  graph_stats : Option Summary
  warnings : Nat
deriving DecidableEq, Repr

/-- `MetaKnowledgeGraph.__init__`: fresh per-instance state; constructing
`Category('unknown')` registers "unknown" in the class-level map (the
returned first component). -/
def newMKG (cmap : List String) (name : String) : List String × MetaKnowledgeGraph :=
  (registerCurie cmap "unknown",
   { name := name, node_catalog := [], node_stats := [("unknown", newCategoryData)],
     edge_record_count := 0, predicates := [], association_map := [],
     edge_stats := [], graph_stats := none, warnings := 0 })

/-- `str.split("|")` of line 192: split on every pipe character. -/
def splitPipeAux (acc : List Char) : List Char → List (List Char)
  | [] => [acc]
  | c :: cs => if c = '|' then acc :: splitPipeAux [] cs else splitPipeAux (acc ++ [c]) cs

/-- `category_data.split("|")` (line 192). -/
def splitPipe (s : String) : List String :=
  (splitPipeAux [] s.data).map List.asString

/-- Lines 194-201, the body of the inner loop of `analyse_node` for one
category curie token: create the `Category` (registering the curie in the
class-level map) when the instance has no stats for it yet, look up its
cid, attach the cid to the node's catalog entry if new, then update the
category statistics. -/
def noteCat (n : String) (data : NodeData)
    (acc : List String × MetaKnowledgeGraph) (curie : String) :
    List String × MetaKnowledgeGraph :=
  let cmap := acc.1
  let st := acc.2
  let cmap' := if (getKV st.node_stats curie).isSome then cmap else registerCurie cmap curie
  let stats1 := if (getKV st.node_stats curie).isSome then st.node_stats
                else st.node_stats ++ [(curie, newCategoryData)]
  let cid := idxOfStr cmap' curie
  let cat1 := if cid ∈ (getKV st.node_catalog n).getD [] then st.node_catalog
              else updKV st.node_catalog n (fun e => e ++ [cid])
  -- the key `curie` is present in `stats1` by construction; the default is dead
  let c0 := (getKV stats1 curie).getD newCategoryData
  let cw := analyse_node_category n data c0
  (cmap', { st with node_catalog := cat1,
                    node_stats := updKV stats1 curie (fun _ => cw.1),
                    warnings := st.warnings + cw.2 })

/-- `MetaKnowledgeGraph.analyse_node` (lines 166-201).  `none` models the
uncaught KeyError of line 179 (`node_stats['unknown']` after a finalization
has popped the zero-count "unknown" entry). -/
def analyse_node (cmap : List String) (st : MetaKnowledgeGraph)
    (n : String) (data : NodeData) : Option (List String × MetaKnowledgeGraph) :=
  if (getKV st.node_catalog n).isSome then
    -- lines 170-174: duplicate node id, warn and ignore
    some (cmap, { st with warnings := st.warnings + 1 })
  else
    let st := { st with node_catalog := st.node_catalog ++ [(n, [])] }
    match data.category with
    | none =>
        -- lines 178-185: count under 'unknown', warn, and return
        match getKV st.node_stats "unknown" with
        | none => none
        | some c =>
            let cw := analyse_node_category n data c
            some (cmap, { st with node_stats := updKV st.node_stats "unknown" (fun _ => cw.1),
                                  warnings := st.warnings + cw.2 + 1 })
    | some cats =>
        -- lines 187-201: each category value, each pipe-separated token
        some (cats.foldl (fun acc cd => (splitPipe cd).foldl (noteCat n data) acc) (cmap, st))

/-- Lines 240-266: the loop over the object node's category indices for one
resolved subject category. -/
def objLoop (cmap : List String) (subject_category : String) (d : EdgeData)
    (am : List (Triple × AssocData)) (objIdxs : List Nat) : List (Triple × AssocData) :=
  objIdxs.foldl (fun am oi => bumpTriple am (subject_category, d.predicate, curieOf cmap oi) d) am

/-- Lines 230-266: the loop over the subject node's category indices.  The
object-presence test of line 233 sits *inside* this loop; a missing object
reverts the optimistic counts, warns once and aborts the whole edge. -/
def subjLoop (cmap : List String) (v : String) (d : EdgeData) :
    MetaKnowledgeGraph → List Nat → MetaKnowledgeGraph
  | st, [] => st
  | st, si :: rest =>
      let subject_category := curieOf cmap si
      match getKV st.node_catalog v with
      | none =>
          { st with warnings := st.warnings + 1,
                    edge_record_count := st.edge_record_count - 1,
                    predicates := updKV st.predicates d.predicate (· - 1) }
      | some objIdxs =>
          subjLoop cmap v d
            { st with association_map := objLoop cmap subject_category d st.association_map objIdxs }
            rest

/-- `MetaKnowledgeGraph.analyse_edge` (lines 203-266).  The unused third
Python parameter `k` (the edge key) is kept for signature fidelity. -/
def analyse_edge (cmap : List String) (st : MetaKnowledgeGraph)
    (u v _k : String) (d : EdgeData) : MetaKnowledgeGraph :=
  -- lines 214-221: optimistic increments
  let st := { st with edge_record_count := st.edge_record_count + 1,
                      predicates := bumpKV st.predicates d.predicate }
  match getKV st.node_catalog u with
  | none =>
      -- lines 223-228: unknown subject, warn and revert
      { st with warnings := st.warnings + 1,
                edge_record_count := st.edge_record_count - 1,
                predicates := updKV st.predicates d.predicate (· - 1) }
  | some subjIdxs => subjLoop cmap v d st subjIdxs

/-! ## Summary building -/

/-- `get_node_stats` (lines 294-297): pop the synthetic "unknown" category
when it never counted anything, then hand back the (mutated) stats dict. -/
def get_node_stats (st : MetaKnowledgeGraph) :
    List (String × CategoryData) × MetaKnowledgeGraph :=
  match getKV st.node_stats "unknown" with
  | some c =>
      if c.count = 0 then
        let ns := removeKV st.node_stats "unknown"
        (ns, { st with node_stats := ns })
      else (st.node_stats, st)
  | none => (st.node_stats, st)

/-- `get_edge_stats` (lines 311-320): on first use, flatten the association
map values into the cached `edge_stats` list. -/
def get_edge_stats (st : MetaKnowledgeGraph) :
    List AssocData × MetaKnowledgeGraph :=
  if st.edge_stats.isEmpty then
    let es := st.association_map.map (fun p => p.2)
    (es, { st with edge_stats := es })
  else (st.edge_stats, st)

/-- `get_graph_summary` (lines 532-562): build the summary on first call and
cache it in `graph_stats`; later calls return the cache unchanged.  `none`
for the `name` argument models a falsy Python `name`. -/
def get_graph_summary (st : MetaKnowledgeGraph) (name : Option String) :
    Summary × MetaKnowledgeGraph :=
  match st.graph_stats with
  | some g => (g, st)
  | none =>
      let ns := (get_node_stats st).1
      let st1 := (get_node_stats st).2
      let es := (get_edge_stats st1).1
      let st2 := (get_edge_stats st1).2
      let g : Summary := { nodes := ns, edges := es, name := name.getD st.name }
      (g, { st2 with graph_stats := some g })

/-! ## Source.check_node_filter / check_edge_filter (source.py lines 237-320)

A filter value is either a string or a set/list/tuple of strings (the only
shapes `set_node_filter`/`set_edge_filter` store); a record value is either
a string or a list of strings.  Python's `x in node[k]` is list membership
when the record value is a list and substring containment when it is a
string; `node[k] == v` against a string filter is string equality, false
for a list-valued record field. -/

inductive FValue where
  | strv (s : String)
  | setv (xs : List String)
deriving DecidableEq, Repr

inductive RValue where
  | strv (s : String)
  | listv (xs : List String)
deriving DecidableEq, Repr

/-- `x in <record value>` for strings: contiguous substring containment. -/
def subStrOf (x : List Char) : List Char → Bool
  | [] => x.isEmpty
  | c :: cs => x.isPrefixOf (c :: cs) || subStrOf x cs

/-- Python's `x in rv`. -/
def pyIn (x : String) : RValue → Bool
  | .strv s => subStrOf x.data s.data
  | .listv xs => x ∈ xs

/-- The per-key test of lines 256-266 / 301-310: `any(x in rec[k] for x in v)`
for a set-valued filter, `rec[k] == v` for a string-valued one. -/
def matchFV (v : FValue) (rv : RValue) : Bool :=
  match v with
  | .setv xs => xs.any (fun x => pyIn x rv)
  | .strv s => match rv with | .strv t => t = s | .listv _ => false

/-- The loop of `check_node_filter` (lines 253-272) carrying `pass_filter`. -/
def nodeFilterLoop (node : List (String × RValue)) :
    List (String × FValue) → Bool → Bool
  | [], pf => pf
  | (k, v) :: rest, _pf =>
      match getKV node k with
      | some rv => if matchFV v rv then nodeFilterLoop node rest true else false
      | none => false

/-- `Source.check_node_filter` (lines 237-276). -/
def check_node_filter (filters : List (String × FValue))
    (node : List (String × RValue)) : Bool :=
  if filters.isEmpty then true else nodeFilterLoop node filters false

/-- The loop of `check_edge_filter` (lines 294-316): the two category keys
are skipped with `pass_filter = True`. -/
def edgeFilterLoop (edge : List (String × RValue)) :
    List (String × FValue) → Bool → Bool
  | [], pf => pf
  | (k, v) :: rest, _pf =>
      if k = "subject_category" ∨ k = "object_category" then
        edgeFilterLoop edge rest true
      else
        match getKV edge k with
        | some rv => if matchFV v rv then edgeFilterLoop edge rest true else false
        | none => false

/-- `Source.check_edge_filter` (lines 278-320). -/
def check_edge_filter (filters : List (String × FValue))
    (edge : List (String × RValue)) : Bool :=
  if filters.isEmpty then true else edgeFilterLoop edge filters false

/-! ## Source._infores_processor (source.py lines 44-112)

The inner `_process_infores` closure.  The rewrite filter is modelled for
literal (metacharacter-free) regex patterns, on which `re.sub(pattern, sub,
s)` replaces each non-overlapping occurrence of the literal left to right;
the three fixed substitutions of lines 81-83 act on ASCII the way the
char-level functions below do. -/

/-- Replace every non-overlapping occurrence of the literal `pat` by `sub`,
left to right.  The fuel (always called with the input length) bounds the
recursion: every step consumes at least one input character, an empty `pat`
never fires. -/
def replaceLitAux (pat sub : List Char) : Nat → List Char → List Char
  | 0, s => s
  | _ + 1, [] => []
  | fuel + 1, c :: cs =>
      if pat ≠ [] ∧ pat.isPrefixOf (c :: cs) then
        sub ++ replaceLitAux pat sub fuel ((c :: cs).drop pat.length)
      else
        c :: replaceLitAux pat sub fuel cs

/-- `re.sub` for a literal pattern (line 75, `_filter.sub(_substr, source)`). -/
def replaceLit (pat sub s : List Char) : List Char :=
  replaceLitAux pat sub s.length s

/-- `str.strip()` (line 79): drop leading and trailing whitespace. -/
def stripChars (cs : List Char) : List Char :=
  ((cs.dropWhile Char.isWhitespace).reverse.dropWhile Char.isWhitespace).reverse

/-- `re.sub(r"\s+", "_", s)` (line 81): each maximal whitespace run becomes
one underscore.  The flag says whether the previous character was
whitespace. -/
def wsToUnderscore : Bool → List Char → List Char
  | _, [] => []
  | prevWs, c :: cs =>
      if c.isWhitespace then
        if prevWs then wsToUnderscore true cs
        else '_' :: wsToUnderscore true cs
      else c :: wsToUnderscore false cs

/-- A `\w` word character (ASCII): letter, digit or underscore. -/
def isWordChar (c : Char) : Bool :=
  c.isAlphanum || c = '_'

/-- The inner `_process_infores` closure (lines 73-85).  The first argument
is the `infores_rewrite_filter` tuple: `none` (or an empty pattern) means
no rewrite, otherwise (pattern, substitution, added namespace). -/
def processInfores (rw : Option (String × String × String)) (source : String) : String :=
  let fpat : Option String := match rw with
    | some (p, _, _) => if p = "" then none else some p
    | none => none
  let fsub : String := match rw with | some (_, s, _) => s | none => ""
  let fpfxAdd : String := match rw with | some (_, _, px) => px | none => ""
  let s0 := match fpat with
    | some p => replaceLit p.data fsub.data source.data
    | none => source.data
  let s1 := fpfxAdd.data ++ [' '] ++ s0
  let s2 := stripChars s1
  let s3 := s2.map Char.toLower
  let s4 := wsToUnderscore false s3
  let s5 := s4.filter isWordChar
  let s6 := s5.map (fun c => if c = '_' then '-' else c)
  s6.asString

/-! ## Remaining definitions used by theorem statements -/

/-- Occurrence count of `a` in a list (multiset multiplicity). -/
def occCount [DecidableEq α] (a : α) : List α → Nat
  | [] => 0
  | b :: l => (if a = b then 1 else 0) + occCount a l

/-- The aggregated count of an association triple (0 when the triple has no
record yet). -/
def tCount (am : List (Triple × AssocData)) (t : Triple) : Nat :=
  ((getKV am t).map (fun a => a.count)).getD 0

/-- The relation set of an association triple ([] when the triple has no
record yet). -/
def tRels (am : List (Triple × AssocData)) (t : Triple) : List String :=
  ((getKV am t).map (fun a => a.relations)).getD []

/-- The triples the cartesian double loop of `analyse_edge` touches, in
loop order: subject indices `ls` outer, object indices `lo` inner. -/
def tripleList (cmap : List String) (p : String) (lo : List Nat) :
    List Nat → List Triple
  | [] => []
  | i :: is => lo.map (fun j => (curieOf cmap i, p, curieOf cmap j)) ++ tripleList cmap p lo is

/-- The association map after the subject loop of `analyse_edge`, with the
object's catalog entry fixed at `lo`. -/
def subjAm (cmap : List String) (d : EdgeData) (lo : List Nat) :
    List (Triple × AssocData) → List Nat → List (Triple × AssocData)
  | am, [] => am
  | am, i :: is => subjAm cmap d lo (objLoop cmap (curieOf cmap i) d am lo) is

/-- The running count a `MetaKnowledgeGraph` instance keeps for a category
identifier (0 when the instance has no stats for it). -/
def catCount (ns : List (String × CategoryData)) (q : String) : Nat :=
  ((getKV ns q).map (fun c => c.count)).getD 0

/-! ## Concrete states used by the witnesses -/

/-- A concrete curie map for the C1 witness: subject "a" carries two
categories, object "b" three. -/
def wCmap : List String :=
  ["unknown", "biolink:Gene", "biolink:Protein", "biolink:Disease"]

/-- A concrete instance state for the C1 witness. -/
def wSt : MetaKnowledgeGraph :=
  { name := "w", node_catalog := [("a", [1, 2]), ("b", [1, 2, 3])],
    node_stats := [], edge_record_count := 0, predicates := [],
    association_map := [], edge_stats := [], graph_stats := none, warnings := 0 }

/-- A concrete edge payload for the C1 witness. -/
def wD : EdgeData := { predicate := "biolink:related_to", relation := "RO:1", provided_by := none }

/-- A state for the C10 witness: subject "c" is catalogued with no
category indices; the object "zz" is absent from the catalog. -/
def wSt10 : MetaKnowledgeGraph :=
  { name := "w", node_catalog := [("c", [])],
    node_stats := [], edge_record_count := 5, predicates := [("biolink:related_to", 2)],
    association_map := [], edge_stats := [], graph_stats := none, warnings := 0 }

/-- An empty-catalog state for the C6 witness (no categories tracked yet,
so the class-map coherence hypothesis is vacuous). -/
def wSt6 : MetaKnowledgeGraph :=
  { name := "w", node_catalog := [], node_stats := [], edge_record_count := 0,
    predicates := [], association_map := [], edge_stats := [],
    graph_stats := none, warnings := 0 }

/-- An already-finalized state for the C3 witness. -/
def wSt3 : MetaKnowledgeGraph :=
  { name := "w", node_catalog := [], node_stats := [], edge_record_count := 0,
    predicates := [], association_map := [], edge_stats := [],
    graph_stats := some { nodes := [], edges := [], name := "w" }, warnings := 0 }

/-! ## The C9 scenario: two instances of one process, and an isolated one

`newMKG` takes the class-level curie map as it stands when the instance is
constructed; within one Python process the second instance receives the
map as the first instance left it (the class attribute is shared), while a
hypothetical isolated pass would start from the empty map. -/

/-- First engine instance of the process. -/
def mkgA : List String × MetaKnowledgeGraph := newMKG [] "A"

/-- Instance A registers node "X:1" with category "biolink:Gene". -/
def runA : List String × MetaKnowledgeGraph :=
  (analyse_node mkgA.1 mkgA.2 "X:1"
    { category := some ["biolink:Gene"], provided_by := none }).getD mkgA

/-- Second engine instance, constructed later in the same process: it sees
the class-level map instance A already extended. -/
def mkgB : List String × MetaKnowledgeGraph := newMKG runA.1 "B"

/-- Instance B registers node "X:2" with category "biolink:Disease". -/
def runB : List String × MetaKnowledgeGraph :=
  (analyse_node mkgB.1 mkgB.2 "X:2"
    { category := some ["biolink:Disease"], provided_by := none }).getD mkgB

/-- The same second pass run in isolation (fresh process: empty class map). -/
def mkgBIso : List String × MetaKnowledgeGraph := newMKG [] "B"

/-- The isolated pass registers the same node "X:2". -/
def runBIso : List String × MetaKnowledgeGraph :=
  (analyse_node mkgBIso.1 mkgBIso.2 "X:2"
    { category := some ["biolink:Disease"], provided_by := none }).getD mkgBIso

/-! ## Association-list lemmas -/

theorem getKV_append_of_isSome [DecidableEq κ] {m₁ : List (κ × β)} {q : κ}
    (m₂ : List (κ × β)) (h : (getKV m₁ q).isSome) :
    getKV (m₁ ++ m₂) q = getKV m₁ q := by
  induction m₁ with
  | nil => simp [getKV] at h
  | cons kv r ih =>
      obtain ⟨k, v⟩ := kv
      by_cases hq : q = k
      · simp [getKV, hq]
      · simp only [getKV, if_neg hq] at h ⊢
        exact ih h

theorem getKV_append_of_none [DecidableEq κ] {m₁ : List (κ × β)} {q : κ}
    (m₂ : List (κ × β)) (h : getKV m₁ q = none) :
    getKV (m₁ ++ m₂) q = getKV m₂ q := by
  induction m₁ with
  | nil => simp
  | cons kv r ih =>
      obtain ⟨k, v⟩ := kv
      by_cases hq : q = k
      · simp [getKV, hq] at h
      · simp only [getKV, if_neg hq] at h ⊢
        exact ih h

theorem getKV_singleton [DecidableEq κ] (k q : κ) (v : β) :
    getKV [(k, v)] q = if q = k then some v else none := by
  simp [getKV]

theorem getKV_updKV_self [DecidableEq κ] (m : List (κ × β)) (q : κ) (f : β → β) :
    getKV (updKV m q f) q = (getKV m q).map f := by
  induction m with
  | nil => simp [getKV, updKV]
  | cons kv r ih =>
      obtain ⟨k, v⟩ := kv
      by_cases hq : q = k
      · simp [getKV, updKV, hq]
      · simp [getKV, updKV, hq, ih]

theorem getKV_updKV_ne [DecidableEq κ] (m : List (κ × β)) {q q' : κ} (f : β → β)
    (h : q' ≠ q) : getKV (updKV m q f) q' = getKV m q' := by
  induction m with
  | nil => simp [updKV]
  | cons kv r ih =>
      obtain ⟨k, v⟩ := kv
      by_cases hq : q = k
      · subst hq
        simp [getKV, updKV, if_neg h]
      · by_cases hq' : q' = k
        · simp [getKV, updKV, hq, hq']
        · simp [getKV, updKV, hq, hq', ih]

theorem cntKV_bumpKV_self [DecidableEq κ] (m : List (κ × Nat)) (k : κ) :
    cntKV (bumpKV m k) k = cntKV m k + 1 := by
  unfold bumpKV
  cases h : getKV m k with
  | none =>
      simp [cntKV, getKV_append_of_none [(k, 1)] h, getKV_singleton, h]
  | some c =>
      simp [cntKV, getKV_updKV_self, h]

theorem cntKV_bumpKV_ne [DecidableEq κ] (m : List (κ × Nat)) {k q : κ}
    (h : q ≠ k) : cntKV (bumpKV m k) q = cntKV m q := by
  unfold bumpKV
  cases hk : getKV m k with
  | none =>
      cases hq : getKV m q with
      | none => simp [cntKV, getKV_append_of_none [(k, 1)] hq, getKV_singleton, if_neg h, hq]
      | some c =>
          have hs : getKV (m ++ [(k, 1)]) q = getKV m q :=
            getKV_append_of_isSome [(k, 1)] (by simp [hq])
          simp [cntKV, hs, hq]
  | some c => simp [cntKV, getKV_updKV_ne m (· + 1) h]

theorem cntKV_dec_bumpKV [DecidableEq κ] (m : List (κ × Nat)) (k q : κ) :
    cntKV (updKV (bumpKV m k) k (· - 1)) q = cntKV m q := by
  by_cases hq : q = k
  · subst hq
    have h1 : getKV (updKV (bumpKV m q) q (· - 1)) q
        = (getKV (bumpKV m q) q).map (· - 1) := getKV_updKV_self _ _ _
    have h2 : cntKV (bumpKV m q) q = cntKV m q + 1 := cntKV_bumpKV_self m q
    simp only [cntKV] at h2 ⊢
    rw [h1]
    cases hb : getKV (bumpKV m q) q with
    | none => simp [hb] at h2
    | some c =>
        simp only [hb, Option.map_some', Option.getD_some]
        simp only [hb, Option.getD_some] at h2
        omega
  · rw [show cntKV (updKV (bumpKV m k) k (· - 1)) q
        = cntKV (bumpKV m k) q from by simp [cntKV, getKV_updKV_ne _ _ hq]]
    exact cntKV_bumpKV_ne m hq

/-! ## Class-level map lemmas -/

theorem curieOf_cons_succ (s : String) (m : List String) (i : Nat) :
    curieOf (s :: m) (i + 1) = curieOf m i := by
  simp [curieOf]

theorem curieOf_idxOfStr {m : List String} {q : String} (h : q ∈ m) :
    curieOf m (idxOfStr m q) = q := by
  induction m with
  | nil => simp at h
  | cons s r ih =>
      by_cases hq : q = s
      · simp [idxOfStr, curieOf, hq]
      · have hr : q ∈ r := by
          rcases List.mem_cons.mp h with h' | h'
          · exact absurd h' hq
          · exact h'
        simp [idxOfStr, if_neg hq, curieOf_cons_succ, ih hr]

theorem idxOfStr_lt_length {m : List String} {q : String} (h : q ∈ m) :
    idxOfStr m q < m.length := by
  induction m with
  | nil => simp at h
  | cons s r ih =>
      by_cases hq : q = s
      · simp [idxOfStr, hq]
      · have hr : q ∈ r := by
          rcases List.mem_cons.mp h with h' | h'
          · exact absurd h' hq
          · exact h'
        have := ih hr
        simp only [idxOfStr, if_neg hq, List.length_cons]
        omega

theorem idxOfStr_append_of_mem {m : List String} {q : String}
    (m' : List String) (h : q ∈ m) :
    idxOfStr (m ++ m') q = idxOfStr m q := by
  induction m with
  | nil => simp at h
  | cons s r ih =>
      by_cases hq : q = s
      · simp [idxOfStr, hq]
      · have hr : q ∈ r := by
          rcases List.mem_cons.mp h with h' | h'
          · exact absurd h' hq
          · exact h'
        simp [idxOfStr, if_neg hq, ih hr]

theorem idxOfStr_append_self {m : List String} {q : String} (h : q ∉ m) :
    idxOfStr (m ++ [q]) q = m.length := by
  induction m with
  | nil => simp [idxOfStr]
  | cons s r ih =>
      have hq : q ≠ s := fun hqs => h (hqs ▸ List.mem_cons_self s r)
      have hr : q ∉ r := fun hqr => h (List.mem_cons_of_mem s hqr)
      simp [idxOfStr, if_neg hq, ih hr]

theorem curieOf_inj {m : List String} {i j : Nat} (hm : m.Nodup)
    (hi : i < m.length) (hj : j < m.length) (h : curieOf m i = curieOf m j) :
    i = j := by
  rw [curieOf, curieOf, List.getD_eq_getElem m "" hi, List.getD_eq_getElem m "" hj] at h
  exact (List.Nodup.getElem_inj_iff hm).mp h

/-! ## Occurrence-count lemmas -/

theorem occCount_append [DecidableEq α] (a : α) (l₁ l₂ : List α) :
    occCount a (l₁ ++ l₂) = occCount a l₁ + occCount a l₂ := by
  induction l₁ with
  | nil => simp [occCount]
  | cons b l ih => simp [occCount, ih]; omega

theorem occCount_eq_zero_of_not_mem [DecidableEq α] {a : α} {l : List α}
    (h : a ∉ l) : occCount a l = 0 := by
  induction l with
  | nil => rfl
  | cons b l ih =>
      have hb : a ≠ b := fun hab => h (hab ▸ List.mem_cons_self b l)
      have hl : a ∉ l := fun hal => h (List.mem_cons_of_mem b hal)
      simp [occCount, if_neg hb, ih hl]

theorem occCount_eq_one_of_nodup_mem [DecidableEq α] {a : α} {l : List α}
    (hd : l.Nodup) (h : a ∈ l) : occCount a l = 1 := by
  induction l with
  | nil => simp at h
  | cons b l ih =>
      rcases List.mem_cons.mp h with hab | hal
      · subst hab
        have : a ∉ l := (List.nodup_cons.mp hd).1
        simp [occCount, occCount_eq_zero_of_not_mem this]
      · have hab : a ≠ b := fun hab => (List.nodup_cons.mp hd).1 (hab ▸ hal)
        simp [occCount, if_neg hab, ih (List.nodup_cons.mp hd).2 hal]

/-! ## bumpTriple lemmas -/

theorem bumpAssoc_count (d : EdgeData) (a : AssocData) :
    (bumpAssoc d a).count = a.count + 1 := by
  unfold bumpAssoc
  cases d.provided_by <;> by_cases h : d.relation ∈ a.relations <;> simp [h]

theorem bumpAssoc_rel_mem (d : EdgeData) (a : AssocData) :
    d.relation ∈ (bumpAssoc d a).relations := by
  unfold bumpAssoc
  cases d.provided_by <;> by_cases h : d.relation ∈ a.relations <;> simp [h]

theorem bumpAssoc_rels_mono (d : EdgeData) (a : AssocData) {r : String}
    (h : r ∈ a.relations) : r ∈ (bumpAssoc d a).relations := by
  unfold bumpAssoc
  cases d.provided_by <;> by_cases hm : d.relation ∈ a.relations <;> simp [hm, h]

theorem getKV_bumpTriple_self (am : List (Triple × AssocData)) (t : Triple)
    (d : EdgeData) :
    getKV (bumpTriple am t d) t
      = some (bumpAssoc d ((getKV am t).getD (newAssocData t))) := by
  unfold bumpTriple
  cases ha : getKV am t with
  | none =>
      have h1 : getKV (am ++ [(t, newAssocData t)]) t = some (newAssocData t) := by
        rw [getKV_append_of_none _ ha, getKV_singleton, if_pos rfl]
      simp [ha, getKV_updKV_self, h1]
  | some a =>
      simp [ha, getKV_updKV_self]

theorem getKV_bumpTriple_ne {am : List (Triple × AssocData)} {t t' : Triple}
    (d : EdgeData) (h : t' ≠ t) :
    getKV (bumpTriple am t d) t' = getKV am t' := by
  unfold bumpTriple
  cases ha : getKV am t with
  | some a =>
      simp only [ha, Option.isSome_some, if_true]
      exact getKV_updKV_ne _ _ h
  | none =>
      simp only [ha, Option.isSome_none, Bool.false_eq_true, if_false]
      rw [getKV_updKV_ne _ _ h]
      cases hq : getKV am t' with
      | some b => rw [getKV_append_of_isSome _ (by simp [hq]), hq]
      | none => rw [getKV_append_of_none _ hq, getKV_singleton, if_neg h]

theorem tCount_bumpTriple_self (am : List (Triple × AssocData)) (t : Triple)
    (d : EdgeData) : tCount (bumpTriple am t d) t = tCount am t + 1 := by
  rw [tCount, getKV_bumpTriple_self]
  cases ha : getKV am t with
  | none => simp [ha, bumpAssoc_count, tCount, newAssocData]
  | some a => simp [ha, bumpAssoc_count, tCount]

theorem tCount_bumpTriple_ne {am : List (Triple × AssocData)} {t t' : Triple}
    (d : EdgeData) (h : t' ≠ t) :
    tCount (bumpTriple am t d) t' = tCount am t' := by
  rw [tCount, getKV_bumpTriple_ne d h, tCount]

theorem rel_mem_bumpTriple_self (am : List (Triple × AssocData)) (t : Triple)
    (d : EdgeData) : d.relation ∈ tRels (bumpTriple am t d) t := by
  rw [tRels, getKV_bumpTriple_self]
  simp [bumpAssoc_rel_mem]

theorem tRels_mono_bumpTriple {am : List (Triple × AssocData)} {t t' : Triple}
    {r : String} (d : EdgeData) (h : r ∈ tRels am t') :
    r ∈ tRels (bumpTriple am t d) t' := by
  by_cases ht : t' = t
  · subst ht
    rw [tRels, getKV_bumpTriple_self]
    cases ha : getKV am t' with
    | none => rw [tRels, ha] at h; simp at h
    | some a =>
        rw [tRels, ha] at h
        simp only [Option.map_some', Option.getD_some] at h
        simp [bumpAssoc_rels_mono d _ h]
  · rw [tRels, getKV_bumpTriple_ne d ht]
    exact h

/-! ## objLoop lemmas -/

theorem objLoop_cons (cmap : List String) (s : String) (d : EdgeData)
    (am : List (Triple × AssocData)) (j : Nat) (lo : List Nat) :
    objLoop cmap s d am (j :: lo)
      = objLoop cmap s d (bumpTriple am (s, d.predicate, curieOf cmap j) d) lo := by
  rfl

theorem tCount_objLoop (cmap : List String) (s : String) (d : EdgeData)
    (am : List (Triple × AssocData)) (lo : List Nat) (t : Triple) :
    tCount (objLoop cmap s d am lo) t
      = tCount am t + occCount t (lo.map (fun j => (s, d.predicate, curieOf cmap j))) := by
  induction lo generalizing am with
  | nil => simp [objLoop, occCount]
  | cons j lo ih =>
      rw [objLoop_cons, ih, List.map_cons]
      show _ = tCount am t + occCount t ((s, d.predicate, curieOf cmap j) :: _)
      rw [occCount]
      by_cases ht : t = (s, d.predicate, curieOf cmap j)
      · rw [if_pos ht, ht, tCount_bumpTriple_self]
        omega
      · rw [if_neg ht, tCount_bumpTriple_ne d ht]
        omega

theorem tRels_mono_objLoop (cmap : List String) (s : String) (d : EdgeData)
    {am : List (Triple × AssocData)} (lo : List Nat) {t : Triple} {r : String}
    (h : r ∈ tRels am t) : r ∈ tRels (objLoop cmap s d am lo) t := by
  induction lo generalizing am with
  | nil => exact h
  | cons j lo ih =>
      rw [objLoop_cons]
      exact ih (tRels_mono_bumpTriple d h)

theorem rel_mem_objLoop (cmap : List String) (s : String) (d : EdgeData)
    (am : List (Triple × AssocData)) {lo : List Nat} {j : Nat} (hj : j ∈ lo) :
    d.relation ∈ tRels (objLoop cmap s d am lo) (s, d.predicate, curieOf cmap j) := by
  induction lo generalizing am with
  | nil => simp at hj
  | cons j' lo ih =>
      rw [objLoop_cons]
      rcases List.mem_cons.mp hj with h | h
      · subst h
        exact tRels_mono_objLoop cmap s d lo (rel_mem_bumpTriple_self am _ d)
      · exact ih _ h

/-! ## subjLoop and tripleList lemmas -/

theorem subjLoop_eq_subjAm (cmap : List String) (v : String) (d : EdgeData) :
    ∀ (ls : List Nat) (st : MetaKnowledgeGraph) (lo : List Nat),
      getKV st.node_catalog v = some lo →
      subjLoop cmap v d st ls
        = { st with association_map := subjAm cmap d lo st.association_map ls } := by
  intro ls
  induction ls with
  | nil => intro st lo h; rfl
  | cons si rest ih =>
      intro st lo h
      rw [subjLoop, h, subjAm]
      exact ih { st with association_map := objLoop cmap (curieOf cmap si) d st.association_map lo } lo h

theorem tCount_subjAm (cmap : List String) (d : EdgeData) (lo : List Nat)
    (am : List (Triple × AssocData)) (ls : List Nat) (t : Triple) :
    tCount (subjAm cmap d lo am ls) t
      = tCount am t + occCount t (tripleList cmap d.predicate lo ls) := by
  induction ls generalizing am with
  | nil => simp [subjAm, tripleList, occCount]
  | cons i is ih =>
      rw [subjAm, ih, tripleList, occCount_append, tCount_objLoop]
      omega

theorem tRels_mono_subjAm (cmap : List String) (d : EdgeData) (lo : List Nat)
    {am : List (Triple × AssocData)} (ls : List Nat) {t : Triple} {r : String}
    (h : r ∈ tRels am t) : r ∈ tRels (subjAm cmap d lo am ls) t := by
  induction ls generalizing am with
  | nil => exact h
  | cons i is ih =>
      rw [subjAm]
      exact ih (tRels_mono_objLoop cmap _ d lo h)

theorem rel_mem_subjAm (cmap : List String) (d : EdgeData) (lo : List Nat)
    (am : List (Triple × AssocData)) {ls : List Nat} {t : Triple}
    (ht : t ∈ tripleList cmap d.predicate lo ls) :
    d.relation ∈ tRels (subjAm cmap d lo am ls) t := by
  induction ls generalizing am with
  | nil => simp [tripleList] at ht
  | cons i is ih =>
      rw [subjAm]
      rw [tripleList] at ht
      rcases List.mem_append.mp ht with h | h
      · obtain ⟨j, hj, rfl⟩ := List.mem_map.mp h
        exact tRels_mono_subjAm cmap d lo is (rel_mem_objLoop cmap _ d am hj)
      · exact ih _ h

theorem tripleList_length (cmap : List String) (p : String) (lo ls : List Nat) :
    (tripleList cmap p lo ls).length = ls.length * lo.length := by
  induction ls with
  | nil => simp [tripleList]
  | cons i is ih =>
      rw [tripleList, List.length_append, List.length_map, ih, List.length_cons]
      ring

theorem mem_tripleList {cmap : List String} {p : String} {lo ls : List Nat}
    {t : Triple} :
    t ∈ tripleList cmap p lo ls
      ↔ ∃ i ∈ ls, ∃ j ∈ lo, t = (curieOf cmap i, p, curieOf cmap j) := by
  induction ls with
  | nil => simp [tripleList]
  | cons i is ih =>
      rw [tripleList, List.mem_append, ih]
      constructor
      · rintro (h | ⟨i', hi', j, hj, rfl⟩)
        · obtain ⟨j, hj, rfl⟩ := List.mem_map.mp h
          exact ⟨i, List.mem_cons_self i is, j, hj, rfl⟩
        · exact ⟨i', List.mem_cons_of_mem i hi', j, hj, rfl⟩
      · rintro ⟨i', hi', j, hj, rfl⟩
        rcases List.mem_cons.mp hi' with h | h
        · subst h
          exact Or.inl (List.mem_map.mpr ⟨j, hj, rfl⟩)
        · exact Or.inr ⟨i', h, j, hj, rfl⟩

theorem tripleList_nodup {cmap : List String} {p : String} {lo ls : List Nat}
    (hls : ls.Nodup) (hlo : lo.Nodup)
    (hbs : ∀ i ∈ ls, i < cmap.length) (hbo : ∀ j ∈ lo, j < cmap.length)
    (hm : cmap.Nodup) : (tripleList cmap p lo ls).Nodup := by
  induction ls with
  | nil => simp [tripleList]
  | cons i is ih =>
      rw [tripleList]
      have hin : i < cmap.length := hbs i (List.mem_cons_self i is)
      have hbs' : ∀ i' ∈ is, i' < cmap.length :=
        fun i' hi' => hbs i' (List.mem_cons_of_mem i hi')
      apply List.Nodup.append
      · refine List.Nodup.map_on ?_ hlo
        intro x hx y hy hxy
        have h3 : curieOf cmap x = curieOf cmap y := congrArg (fun q => q.2.2) hxy
        exact curieOf_inj hm (hbo x hx) (hbo y hy) h3
      · exact ih (List.nodup_cons.mp hls).2 hbs'
      · intro t htl htr
        obtain ⟨j, hj, rfl⟩ := List.mem_map.mp htl
        obtain ⟨i', hi', j', hj', he⟩ := mem_tripleList.mp htr
        have h1 : curieOf cmap i = curieOf cmap i' := congrArg (fun q => q.1) he
        have : i = i' := curieOf_inj hm hin (hbs' i' hi') h1
        exact (List.nodup_cons.mp hls).1 (this ▸ hi')

/-! ## Claim C1 -/

/-- C1: for an edge whose subject and object are both in the node catalog
with `m` and `n` category indices (`m, n ≥ 1`), `analyse_edge` increments
exactly `m*n` distinct association-triple counters by 1 each, adds the
edge's relation to each of those triples' relation sets, and increments the
total edge counter by exactly 1.  The index lists of catalog entries are
duplicate-free and in range of the duplicate-free class-level curie map
(the invariants `analyse_node` maintains), stated here as hypotheses. -/
theorem analyse_edge_cartesian_product (cmap : List String)
    (st : MetaKnowledgeGraph) (u v k : String) (d : EdgeData) (ls lo : List Nat)
    (hu : getKV st.node_catalog u = some ls)
    (hv : getKV st.node_catalog v = some lo)
    (hm : ls ≠ []) (hn : lo ≠ [])
    (hlsnd : ls.Nodup) (hlond : lo.Nodup)
    (hbs : ∀ i ∈ ls, i < cmap.length) (hbo : ∀ j ∈ lo, j < cmap.length)
    (hcm : cmap.Nodup) :
    (tripleList cmap d.predicate lo ls).Nodup ∧
    (tripleList cmap d.predicate lo ls).length = ls.length * lo.length ∧
    (∀ t ∈ tripleList cmap d.predicate lo ls,
      tCount (analyse_edge cmap st u v k d).association_map t
        = tCount st.association_map t + 1) ∧
    (∀ t, t ∉ tripleList cmap d.predicate lo ls →
      tCount (analyse_edge cmap st u v k d).association_map t
        = tCount st.association_map t) ∧
    (∀ t ∈ tripleList cmap d.predicate lo ls,
      d.relation ∈ tRels (analyse_edge cmap st u v k d).association_map t) ∧
    (analyse_edge cmap st u v k d).edge_record_count = st.edge_record_count + 1 := by
  have _hm := hm
  have _hn := hn
  have he : analyse_edge cmap st u v k d
      = subjLoop cmap v d
          { st with edge_record_count := st.edge_record_count + 1,
                    predicates := bumpKV st.predicates d.predicate } ls := by
    unfold analyse_edge
    simp only [hu]
  have hsl := subjLoop_eq_subjAm cmap v d ls
    { st with edge_record_count := st.edge_record_count + 1,
              predicates := bumpKV st.predicates d.predicate }
    lo hv
  rw [hsl] at he
  refine ⟨tripleList_nodup hlsnd hlond hbs hbo hcm,
          tripleList_length cmap d.predicate lo ls, ?_, ?_, ?_, ?_⟩
  · intro t ht
    rw [he]
    show tCount (subjAm cmap d lo st.association_map ls) t = _
    rw [tCount_subjAm,
        occCount_eq_one_of_nodup_mem (tripleList_nodup hlsnd hlond hbs hbo hcm) ht]
  · intro t ht
    rw [he]
    show tCount (subjAm cmap d lo st.association_map ls) t = _
    rw [tCount_subjAm, occCount_eq_zero_of_not_mem ht]
    omega
  · intro t ht
    rw [he]
    exact rel_mem_subjAm cmap d lo st.association_map ht
  · rw [he]

/-- C1 witness: the cartesian-product theorem applied to an edge whose
subject has 2 categories and object has 3. -/
theorem analyse_edge_cartesian_product_witness :
    (tripleList wCmap wD.predicate [1, 2, 3] [1, 2]).Nodup ∧
    (tripleList wCmap wD.predicate [1, 2, 3] [1, 2]).length
      = ([1, 2] : List Nat).length * ([1, 2, 3] : List Nat).length ∧
    (∀ t ∈ tripleList wCmap wD.predicate [1, 2, 3] [1, 2],
      tCount (analyse_edge wCmap wSt "a" "b" "e" wD).association_map t
        = tCount wSt.association_map t + 1) ∧
    (∀ t, t ∉ tripleList wCmap wD.predicate [1, 2, 3] [1, 2] →
      tCount (analyse_edge wCmap wSt "a" "b" "e" wD).association_map t
        = tCount wSt.association_map t) ∧
    (∀ t ∈ tripleList wCmap wD.predicate [1, 2, 3] [1, 2],
      wD.relation ∈ tRels (analyse_edge wCmap wSt "a" "b" "e" wD).association_map t) ∧
    (analyse_edge wCmap wSt "a" "b" "e" wD).edge_record_count
      = wSt.edge_record_count + 1 :=
  analyse_edge_cartesian_product wCmap wSt "a" "b" "e" wD [1, 2] [1, 2, 3]
    (by decide) (by decide) (by decide) (by decide) (by decide) (by decide)
    (by decide) (by decide) (by decide)

/-! ## Claim C4 -/

/-- C4: for an edge whose subject identifier is absent from the node
catalog, `analyse_edge` leaves the total edge counter and every
per-predicate counter value unchanged (the optimistic increments are
reverted), adds no association triples, and emits exactly one warning. -/
theorem analyse_edge_unknown_subject_reverts (cmap : List String)
    (st : MetaKnowledgeGraph) (u v k : String) (d : EdgeData)
    (hu : getKV st.node_catalog u = none) :
    (analyse_edge cmap st u v k d).edge_record_count = st.edge_record_count ∧
    (∀ q, cntKV (analyse_edge cmap st u v k d).predicates q
        = cntKV st.predicates q) ∧
    (analyse_edge cmap st u v k d).association_map = st.association_map ∧
    (analyse_edge cmap st u v k d).warnings = st.warnings + 1 := by
  have he : analyse_edge cmap st u v k d
      = { st with warnings := st.warnings + 1,
                  edge_record_count := st.edge_record_count + 1 - 1,
                  predicates := updKV (bumpKV st.predicates d.predicate) d.predicate (· - 1) } := by
    unfold analyse_edge
    simp only [hu]
  rw [he]
  refine ⟨by simp, fun q => cntKV_dec_bumpKV st.predicates d.predicate q, rfl, rfl⟩

/-- C4 witness: an edge whose subject "zz" was never catalogued, against a
state with one predicate already counted. -/
theorem analyse_edge_unknown_subject_reverts_witness :
    (analyse_edge wCmap wSt "zz" "b" "e" wD).edge_record_count
      = wSt.edge_record_count ∧
    (∀ q, cntKV (analyse_edge wCmap wSt "zz" "b" "e" wD).predicates q
        = cntKV wSt.predicates q) ∧
    (analyse_edge wCmap wSt "zz" "b" "e" wD).association_map
      = wSt.association_map ∧
    (analyse_edge wCmap wSt "zz" "b" "e" wD).warnings = wSt.warnings + 1 :=
  analyse_edge_unknown_subject_reverts wCmap wSt "zz" "b" "e" wD (by decide)

/-! ## Claim C5 -/

/-- C5: a second `analyse_node` call with an identifier already in the node
catalog leaves everything unchanged except for exactly one more warning
line, and returns normally (no error): the result is `some` of the
unchanged class map and the state with `warnings + 1`. -/
theorem analyse_node_duplicate_id_no_mutation (cmap : List String)
    (st : MetaKnowledgeGraph) (n : String) (data : NodeData)
    (h : (getKV st.node_catalog n).isSome = true) :
    analyse_node cmap st n data
      = some (cmap, { st with warnings := st.warnings + 1 }) := by
  unfold analyse_node
  rw [if_pos h]

/-- C5 witness: re-registering node "a" of the concrete state. -/
theorem analyse_node_duplicate_id_no_mutation_witness :
    analyse_node wCmap wSt "a" { category := some ["biolink:Gene"], provided_by := none }
      = some (wCmap, { wSt with warnings := wSt.warnings + 1 }) :=
  analyse_node_duplicate_id_no_mutation wCmap wSt "a"
    { category := some ["biolink:Gene"], provided_by := none } (by decide)

/-! ## Claim C10 -/

/-- C10: for an edge whose subject is catalogued with an *empty*
category-index list (a node registered without any category),
`analyse_edge` keeps the optimistic increments (total edge counter and the
edge's per-predicate counter each permanently +1), creates no association
triples, emits no warning, and never consults the object identifier: the
result is the same for every object id `v`, so a missing object goes
undetected. -/
theorem analyse_edge_empty_subject_categories (cmap : List String)
    (st : MetaKnowledgeGraph) (u v k : String) (d : EdgeData)
    (hu : getKV st.node_catalog u = some []) :
    (analyse_edge cmap st u v k d).edge_record_count = st.edge_record_count + 1 ∧
    cntKV (analyse_edge cmap st u v k d).predicates d.predicate
      = cntKV st.predicates d.predicate + 1 ∧
    (analyse_edge cmap st u v k d).association_map = st.association_map ∧
    (analyse_edge cmap st u v k d).warnings = st.warnings ∧
    (∀ v', analyse_edge cmap st u v' k d = analyse_edge cmap st u v k d) := by
  have he : ∀ w : String, analyse_edge cmap st u w k d
      = { st with edge_record_count := st.edge_record_count + 1,
                  predicates := bumpKV st.predicates d.predicate } := by
    intro w
    unfold analyse_edge
    simp only [hu]
    rfl
  rw [he v]
  exact ⟨rfl, cntKV_bumpKV_self st.predicates d.predicate, rfl, rfl,
         fun v' => he v'⟩

/-- C10 witness: an edge out of the category-less node "c" towards the
never-catalogued object "zz". -/
theorem analyse_edge_empty_subject_categories_witness :
    (analyse_edge wCmap wSt10 "c" "zz" "e" wD).edge_record_count
      = wSt10.edge_record_count + 1 ∧
    cntKV (analyse_edge wCmap wSt10 "c" "zz" "e" wD).predicates wD.predicate
      = cntKV wSt10.predicates wD.predicate + 1 ∧
    (analyse_edge wCmap wSt10 "c" "zz" "e" wD).association_map
      = wSt10.association_map ∧
    (analyse_edge wCmap wSt10 "c" "zz" "e" wD).warnings = wSt10.warnings ∧
    (∀ v', analyse_edge wCmap wSt10 "c" v' "e" wD
        = analyse_edge wCmap wSt10 "c" "zz" "e" wD) :=
  analyse_edge_empty_subject_categories wCmap wSt10 "c" "zz" "e" wD (by decide)

/-! ## Claim C2 -/

/-- C2: the category catalog contract.  Registering an identifier and
resolving its index yields the identifier back
(`identifier_of(register(x)) == x`); registering an already-seen
identifier leaves the catalog and the assigned index unchanged; a fresh
identifier gets index = current size, so indices run 0, 1, 2, ... in
first-seen order, the very first being 0. -/
theorem category_register_contract (m : List String) (x : String) :
    curieOf (registerCurie m x) (idxOfStr (registerCurie m x) x) = x ∧
    (x ∈ m → registerCurie m x = m) ∧
    (x ∉ m → idxOfStr (registerCurie m x) x = m.length) ∧
    idxOfStr (registerCurie [] x) x = 0 := by
  refine ⟨?_, ?_, ?_, ?_⟩
  · have hx : x ∈ registerCurie m x := by
      unfold registerCurie
      by_cases h : x ∈ m
      · rw [if_pos h]; exact h
      · rw [if_neg h]; exact List.mem_append_right m (List.mem_singleton.mpr rfl)
    exact curieOf_idxOfStr hx
  · intro h
    unfold registerCurie
    rw [if_pos h]
  · intro h
    unfold registerCurie
    rw [if_neg h]
    exact idxOfStr_append_self h
  · simp [registerCurie, idxOfStr]

/-! ## noteCat helper lemmas (towards C6) -/

theorem getKV_append_single_ne [DecidableEq κ] {m : List (κ × β)} {k q : κ}
    (v : β) (h : q ≠ k) : getKV (m ++ [(k, v)]) q = getKV m q := by
  cases hq : getKV m q with
  | some b => rw [getKV_append_of_isSome _ (by simp [hq]), hq]
  | none => rw [getKV_append_of_none _ hq, getKV_singleton, if_neg h]

theorem isSome_getKV_updKV [DecidableEq κ] (m : List (κ × β)) (k q : κ)
    (f : β → β) : (getKV (updKV m k f) q).isSome = (getKV m q).isSome := by
  by_cases hq : q = k
  · subst hq
    rw [getKV_updKV_self]
    cases getKV m q <;> simp
  · rw [getKV_updKV_ne _ _ hq]

theorem mem_registerCurie_self (m : List String) (c : String) :
    c ∈ registerCurie m c := by
  unfold registerCurie
  by_cases h : c ∈ m
  · rw [if_pos h]; exact h
  · rw [if_neg h]; exact List.mem_append_right m (List.mem_singleton.mpr rfl)

theorem mem_registerCurie_of_mem {m : List String} {q : String} (c : String)
    (h : q ∈ m) : q ∈ registerCurie m c := by
  unfold registerCurie
  by_cases hc : c ∈ m
  · rw [if_pos hc]; exact h
  · rw [if_neg hc]; exact List.mem_append_left _ h

theorem idxOfStr_registerCurie_of_mem {m : List String} {q : String}
    (c : String) (h : q ∈ m) :
    idxOfStr (registerCurie m c) q = idxOfStr m q := by
  unfold registerCurie
  by_cases hc : c ∈ m
  · rw [if_pos hc]
  · rw [if_neg hc]
    exact idxOfStr_append_of_mem _ h

theorem idxOfStr_inj_of_mem {m : List String} {q r : String}
    (hq : q ∈ m) (hr : r ∈ m) (h : idxOfStr m q = idxOfStr m r) : q = r := by
  have h1 := curieOf_idxOfStr hq
  have h2 := curieOf_idxOfStr hr
  rw [← h1, ← h2, h]

theorem analyse_node_category_count (n : String) (data : NodeData)
    (c : CategoryData) :
    (analyse_node_category n data c).1.count = c.count + 1 := by
  unfold analyse_node_category
  cases curiePfxOf n <;> cases data.provided_by <;>
    simp <;> split <;> simp

/-- `noteCat` on a category the instance already tracks: no registration,
in-place stats update. -/
theorem noteCat_eq_of_present {st : MetaKnowledgeGraph} {c : String}
    {a : CategoryData} {e : List Nat} (n : String) (data : NodeData)
    (cmap : List String)
    (hp : getKV st.node_stats c = some a)
    (hn : getKV st.node_catalog n = some e) :
    noteCat n data (cmap, st) c =
      (cmap,
       { st with
         node_catalog := if idxOfStr cmap c ∈ e then st.node_catalog
                         else updKV st.node_catalog n (fun e' => e' ++ [idxOfStr cmap c]),
         node_stats := updKV st.node_stats c (fun _ => (analyse_node_category n data a).1),
         warnings := st.warnings + (analyse_node_category n data a).2 }) := by
  unfold noteCat
  simp only [hp, hn, Option.isSome_some, if_true, Option.getD_some]

/-- `noteCat` on a category the instance meets for the first time: the
`Category` constructor registers it in the class-level map and the
instance's stats gain a fresh entry. -/
theorem noteCat_eq_of_absent {st : MetaKnowledgeGraph} {c : String}
    {e : List Nat} (n : String) (data : NodeData) (cmap : List String)
    (hp : getKV st.node_stats c = none)
    (hn : getKV st.node_catalog n = some e) :
    noteCat n data (cmap, st) c =
      (registerCurie cmap c,
       { st with
         node_catalog := if idxOfStr (registerCurie cmap c) c ∈ e then st.node_catalog
                         else updKV st.node_catalog n
                           (fun e' => e' ++ [idxOfStr (registerCurie cmap c) c]),
         node_stats := updKV (st.node_stats ++ [(c, newCategoryData)]) c
                         (fun _ => (analyse_node_category n data newCategoryData).1),
         warnings := st.warnings + (analyse_node_category n data newCategoryData).2 }) := by
  unfold noteCat
  have h1 : getKV (st.node_stats ++ [(c, newCategoryData)]) c = some newCategoryData := by
    rw [getKV_append_of_none _ hp, getKV_singleton, if_pos rfl]
  simp only [hp, hn, h1, Option.isSome_none, Bool.false_eq_true, if_false,
    Option.getD_some]

/-- The effect of one `noteCat` step on the class map, the coherence
invariant ("every category the instance tracks is in the class map"), the
per-category counts and the node's catalog entry. -/
theorem noteCat_step (n : String) (data : NodeData) (cmap : List String)
    (st : MetaKnowledgeGraph) (c : String) (e : List Nat)
    (hcoh : ∀ q, (getKV st.node_stats q).isSome = true → q ∈ cmap)
    (hn : getKV st.node_catalog n = some e) :
    c ∈ (noteCat n data (cmap, st) c).1 ∧
    (∀ q ∈ cmap, q ∈ (noteCat n data (cmap, st) c).1) ∧
    (∀ q ∈ cmap, idxOfStr (noteCat n data (cmap, st) c).1 q = idxOfStr cmap q) ∧
    (∀ q, (getKV (noteCat n data (cmap, st) c).2.node_stats q).isSome = true →
      q ∈ (noteCat n data (cmap, st) c).1) ∧
    catCount (noteCat n data (cmap, st) c).2.node_stats c
      = catCount st.node_stats c + 1 ∧
    (∀ q, q ≠ c → catCount (noteCat n data (cmap, st) c).2.node_stats q
      = catCount st.node_stats q) ∧
    getKV (noteCat n data (cmap, st) c).2.node_catalog n
      = some (if idxOfStr (noteCat n data (cmap, st) c).1 c ∈ e then e
              else e ++ [idxOfStr (noteCat n data (cmap, st) c).1 c]) ∧
    (∀ x, x ≠ n → getKV (noteCat n data (cmap, st) c).2.node_catalog x
      = getKV st.node_catalog x) := by
  cases hp : getKV st.node_stats c with
  | some a =>
      rw [noteCat_eq_of_present n data cmap hp hn]
      refine ⟨hcoh c (by rw [hp]; rfl), fun q hq => hq, fun q _ => rfl, ?_, ?_, ?_, ?_, ?_⟩
      · intro q hq
        show q ∈ cmap
        apply hcoh q
        rwa [show (getKV (updKV st.node_stats c
            (fun _ => (analyse_node_category n data a).1)) q).isSome
          = (getKV st.node_stats q).isSome from isSome_getKV_updKV _ _ _ _] at hq
      · show catCount (updKV st.node_stats c _) c = _
        rw [catCount, getKV_updKV_self, hp]
        rw [catCount, hp]
        simp [analyse_node_category_count]
      · intro q hq
        show catCount (updKV st.node_stats c _) q = _
        rw [catCount, getKV_updKV_ne _ _ hq, catCount]
      · by_cases hc : idxOfStr cmap c ∈ e
        · show getKV (if _ then _ else _) n = _
          rw [if_pos hc, if_pos hc, hn]
        · show getKV (if _ then _ else _) n = _
          rw [if_neg hc, if_neg hc, getKV_updKV_self, hn]
          rfl
      · intro x hx
        by_cases hc : idxOfStr cmap c ∈ e
        · show getKV (if _ then _ else _) x = _
          rw [if_pos hc]
        · show getKV (if _ then _ else _) x = _
          rw [if_neg hc, getKV_updKV_ne _ _ hx]
  | none =>
      rw [noteCat_eq_of_absent n data cmap hp hn]
      refine ⟨mem_registerCurie_self cmap c,
              fun q hq => mem_registerCurie_of_mem c hq,
              fun q hq => idxOfStr_registerCurie_of_mem c hq, ?_, ?_, ?_, ?_, ?_⟩
      · intro q hq
        show q ∈ registerCurie cmap c
        rw [show (getKV (updKV (st.node_stats ++ [(c, newCategoryData)]) c
            (fun _ => (analyse_node_category n data newCategoryData).1)) q).isSome
          = (getKV (st.node_stats ++ [(c, newCategoryData)]) q).isSome from
            isSome_getKV_updKV _ _ _ _] at hq
        by_cases hqc : q = c
        · exact hqc ▸ mem_registerCurie_self cmap c
        · rw [getKV_append_single_ne _ hqc] at hq
          exact mem_registerCurie_of_mem c (hcoh q hq)
      · have h1 : getKV (st.node_stats ++ [(c, newCategoryData)]) c
            = some newCategoryData := by
          rw [getKV_append_of_none _ hp, getKV_singleton, if_pos rfl]
        show catCount (updKV _ c _) c = _
        rw [catCount, getKV_updKV_self, h1, catCount, hp]
        simp [analyse_node_category_count, newCategoryData]
      · intro q hq
        show catCount (updKV _ c _) q = _
        rw [catCount, getKV_updKV_ne _ _ hq, getKV_append_single_ne _ hq, catCount]
      · by_cases hc : idxOfStr (registerCurie cmap c) c ∈ e
        · show getKV (if _ then _ else _) n = _
          rw [if_pos hc, if_pos hc, hn]
        · show getKV (if _ then _ else _) n = _
          rw [if_neg hc, if_neg hc, getKV_updKV_self, hn]
          rfl
      · intro x hx
        by_cases hc : idxOfStr (registerCurie cmap c) c ∈ e
        · show getKV (if _ then _ else _) x = _
          rw [if_pos hc]
        · show getKV (if _ then _ else _) x = _
          rw [if_neg hc, getKV_updKV_ne _ _ hx]

/-! ## Claim C6 -/

/-- C6: a fresh node whose category field holds the piped value split into
two distinct tokens A and B contributes +1 to A's count and +1 to B's
count, and its catalog entry afterwards is exactly the two distinct
indices of A and of B. -/
theorem analyse_node_piped_categories (cmap : List String)
    (st : MetaKnowledgeGraph) (n A B s : String) (data : NodeData)
    (hfresh : getKV st.node_catalog n = none)
    (hcat : data.category = some [s])
    (hsplit : splitPipe s = [A, B])
    (hAB : A ≠ B)
    (hcoh : ∀ q, (getKV st.node_stats q).isSome = true → q ∈ cmap) :
    (analyse_node cmap st n data).isSome = true ∧
    catCount ((analyse_node cmap st n data).getD (cmap, st)).2.node_stats A
      = catCount st.node_stats A + 1 ∧
    catCount ((analyse_node cmap st n data).getD (cmap, st)).2.node_stats B
      = catCount st.node_stats B + 1 ∧
    getKV ((analyse_node cmap st n data).getD (cmap, st)).2.node_catalog n
      = some [idxOfStr ((analyse_node cmap st n data).getD (cmap, st)).1 A,
              idxOfStr ((analyse_node cmap st n data).getD (cmap, st)).1 B] ∧
    idxOfStr ((analyse_node cmap st n data).getD (cmap, st)).1 A
      ≠ idxOfStr ((analyse_node cmap st n data).getD (cmap, st)).1 B := by
  have hres : analyse_node cmap st n data
      = some ((splitPipe s).foldl (noteCat n data)
          (cmap, { st with node_catalog := st.node_catalog ++ [(n, [])] })) := by
    unfold analyse_node
    rw [hfresh]
    simp only [Option.isSome_none, Bool.false_eq_true, if_false, hcat,
      List.foldl_cons, List.foldl_nil]
  rw [hsplit] at hres
  simp only [List.foldl_cons, List.foldl_nil] at hres
  have hn1 : getKV ({ st with node_catalog := st.node_catalog ++ [(n, [])] }
      : MetaKnowledgeGraph).node_catalog n = some [] := by
    show getKV (st.node_catalog ++ [(n, [])]) n = some []
    rw [getKV_append_of_none _ hfresh, getKV_singleton, if_pos rfl]
  obtain ⟨hA1, hA2, hA3, hA4, hA5, hA6, hA7, _hA8⟩ :=
    noteCat_step n data cmap
      { st with node_catalog := st.node_catalog ++ [(n, [])] } A [] hcoh hn1
  rcases hSA : noteCat n data
      (cmap, { st with node_catalog := st.node_catalog ++ [(n, [])] }) A
    with ⟨cm1, stA⟩
  rw [hSA] at hres hA1 hA2 hA3 hA4 hA5 hA6 hA7
  simp only [List.not_mem_nil, if_neg (fun h => h), if_false, List.nil_append] at hA7
  obtain ⟨hB1, hB2, hB3, hB4, hB5, hB6, hB7, _hB8⟩ :=
    noteCat_step n data cm1 stA B [idxOfStr cm1 A] hA4 hA7
  rcases hSB : noteCat n data (cm1, stA) B with ⟨cm2, stB⟩
  rw [hSB] at hres hB1 hB2 hB3 hB4 hB5 hB6 hB7
  dsimp only at hA1 hA2 hA3 hA4 hA5 hA6 hA7 hB1 hB2 hB3 hB4 hB5 hB6 hB7
  rw [hres]
  simp only [Option.isSome_some, Option.getD_some]
  have hAcm2 : A ∈ cm2 := hB2 A hA1
  have hidxA : idxOfStr cm2 A = idxOfStr cm1 A := hB3 A hA1
  have hne : idxOfStr cm2 B ∉ [idxOfStr cm1 A] := by
    intro hmem
    have h1 : idxOfStr cm2 B = idxOfStr cm1 A := List.mem_singleton.mp hmem
    have h2 : idxOfStr cm2 B = idxOfStr cm2 A := by rw [h1, hidxA]
    exact hAB (idxOfStr_inj_of_mem hAcm2 hB1 h2.symm)
  refine ⟨trivial, ?_, ?_, ?_, ?_⟩
  · rw [hB6 A hAB, hA5]
  · rw [hB5, hA6 B (fun h => hAB h.symm)]
  · rw [hB7, if_neg hne, hidxA]
    rfl
  · rw [hidxA]
    intro h
    exact hne (List.mem_singleton.mpr h.symm)

/-- C6 witness: the fresh node "X:1" with category value
"biolink:Gene|biolink:Protein" against an empty state. -/
theorem analyse_node_piped_categories_witness :
    (analyse_node [] wSt6 "X:1"
        { category := some ["biolink:Gene|biolink:Protein"], provided_by := none }).isSome
      = true ∧
    catCount ((analyse_node [] wSt6 "X:1"
        { category := some ["biolink:Gene|biolink:Protein"], provided_by := none }).getD
          ([], wSt6)).2.node_stats "biolink:Gene"
      = catCount wSt6.node_stats "biolink:Gene" + 1 ∧
    catCount ((analyse_node [] wSt6 "X:1"
        { category := some ["biolink:Gene|biolink:Protein"], provided_by := none }).getD
          ([], wSt6)).2.node_stats "biolink:Protein"
      = catCount wSt6.node_stats "biolink:Protein" + 1 ∧
    getKV ((analyse_node [] wSt6 "X:1"
        { category := some ["biolink:Gene|biolink:Protein"], provided_by := none }).getD
          ([], wSt6)).2.node_catalog "X:1"
      = some [idxOfStr ((analyse_node [] wSt6 "X:1"
            { category := some ["biolink:Gene|biolink:Protein"], provided_by := none }).getD
              ([], wSt6)).1 "biolink:Gene",
          idxOfStr ((analyse_node [] wSt6 "X:1"
            { category := some ["biolink:Gene|biolink:Protein"], provided_by := none }).getD
              ([], wSt6)).1 "biolink:Protein"] ∧
    idxOfStr ((analyse_node [] wSt6 "X:1"
        { category := some ["biolink:Gene|biolink:Protein"], provided_by := none }).getD
          ([], wSt6)).1 "biolink:Gene"
      ≠ idxOfStr ((analyse_node [] wSt6 "X:1"
        { category := some ["biolink:Gene|biolink:Protein"], provided_by := none }).getD
          ([], wSt6)).1 "biolink:Protein" :=
  analyse_node_piped_categories [] wSt6 "X:1" "biolink:Gene" "biolink:Protein"
    "biolink:Gene|biolink:Protein"
    { category := some ["biolink:Gene|biolink:Protein"], provided_by := none }
    (by decide) rfl (by decide) (by decide)
    (fun q hq => by simp [wSt6, getKV] at hq)

/-! ## Finalization lemmas (towards C3) -/

/-- A finalized instance hands back its cache unchanged, whatever name is
passed. -/
theorem get_graph_summary_of_cached {st : MetaKnowledgeGraph} {g : Summary}
    (nm : Option String) (h : st.graph_stats = some g) :
    get_graph_summary st nm = (g, st) := by
  unfold get_graph_summary
  rw [h]

/-- After any `get_graph_summary` call the cache holds exactly the summary
that call returned. -/
theorem get_graph_summary_caches (st : MetaKnowledgeGraph) (nm : Option String) :
    (get_graph_summary st nm).2.graph_stats = some (get_graph_summary st nm).1 := by
  unfold get_graph_summary
  cases hgs : st.graph_stats with
  | some g =>
      show st.graph_stats = some g
      exact hgs
  | none => rfl

/-- `noteCat` never removes a node-catalog key. -/
theorem noteCat_catalog_isSome (n : String) (data : NodeData) (c x : String)
    (acc : List String × MetaKnowledgeGraph)
    (h : (getKV acc.2.node_catalog x).isSome = true) :
    (getKV (noteCat n data acc c).2.node_catalog x).isSome = true := by
  obtain ⟨cm, st⟩ := acc
  unfold noteCat
  dsimp only
  dsimp only at h
  split <;> split
  all_goals first
    | exact h
    | (rw [isSome_getKV_updKV]; exact h)

/-- The category loop of `analyse_node` never removes a node-catalog key. -/
theorem foldl_noteCat_catalog_isSome (n : String) (data : NodeData) (x : String)
    (toks : List String) (acc : List String × MetaKnowledgeGraph)
    (h : (getKV acc.2.node_catalog x).isSome = true) :
    (getKV (toks.foldl (noteCat n data) acc).2.node_catalog x).isSome = true := by
  induction toks generalizing acc with
  | nil => exact h
  | cons t toks ih =>
      rw [List.foldl_cons]
      exact ih _ (noteCat_catalog_isSome n data t x acc h)

/-- The outer category loop of `analyse_node` never removes a node-catalog
key. -/
theorem foldl_cats_catalog_isSome (n : String) (data : NodeData) (x : String)
    (cats : List String) (acc : List String × MetaKnowledgeGraph)
    (h : (getKV acc.2.node_catalog x).isSome = true) :
    (getKV (cats.foldl
        (fun acc' cd => (splitPipe cd).foldl (noteCat n data) acc') acc).2.node_catalog
      x).isSome = true := by
  induction cats generalizing acc with
  | nil => exact h
  | cons cd cats ih =>
      rw [List.foldl_cons]
      exact ih _ (foldl_noteCat_catalog_isSome n data x (splitPipe cd) acc h)

/-! ## Claim C3 (amended) -/

/-- C3, amended: finalization is memoized and idempotent — a second
`get_graph_summary` call returns the pair of the first call unchanged — but
a record observation after finalization does NOT fail with a
precondition-violation error: `analyse_node` on a fresh identifier (with a
present category field) returns normally and mutates the aggregation
state (the node catalog changes). -/
theorem finalization_memoized_observation_unchecked (cmap : List String)
    (st : MetaKnowledgeGraph) (n1 n2 : Option String) (nid : String)
    (data : NodeData) (cats : List String) (g : Summary)
    (hfin : st.graph_stats = some g)
    (hfresh : getKV st.node_catalog nid = none)
    (hcat : data.category = some cats) :
    (∀ st' : MetaKnowledgeGraph,
      get_graph_summary (get_graph_summary st' n1).2 n2 = get_graph_summary st' n1) ∧
    (analyse_node cmap st nid data).isSome = true ∧
    ((analyse_node cmap st nid data).getD (cmap, st)).2.node_catalog
      ≠ st.node_catalog := by
  have _hfin := hfin
  have hres : analyse_node cmap st nid data
      = some (cats.foldl (fun acc' cd => (splitPipe cd).foldl (noteCat nid data) acc')
          (cmap, { st with node_catalog := st.node_catalog ++ [(nid, [])] })) := by
    unfold analyse_node
    rw [hfresh]
    simp only [Option.isSome_none, Bool.false_eq_true, if_false, hcat]
  refine ⟨?_, ?_, ?_⟩
  · intro st'
    rw [get_graph_summary_of_cached n2 (get_graph_summary_caches st' n1)]
  · rw [hres]
    rfl
  · rw [hres]
    simp only [Option.getD_some]
    intro heq
    have hkey : (getKV ({ st with node_catalog := st.node_catalog ++ [(nid, [])] }
        : MetaKnowledgeGraph).node_catalog nid).isSome = true := by
      show (getKV (st.node_catalog ++ [(nid, [])]) nid).isSome = true
      rw [getKV_append_of_none _ hfresh, getKV_singleton, if_pos rfl]
      rfl
    have h2 := foldl_cats_catalog_isSome nid data nid cats
      (cmap, { st with node_catalog := st.node_catalog ++ [(nid, [])] }) hkey
    rw [heq, hfresh] at h2
    exact Bool.false_ne_true h2

/-- C3 witness: the amended theorem applied to an already-finalized empty
state and the fresh node "X:1". -/
theorem finalization_memoized_observation_unchecked_witness :
    (∀ st' : MetaKnowledgeGraph,
      get_graph_summary (get_graph_summary st' none).2 none = get_graph_summary st' none) ∧
    (analyse_node [] wSt3 "X:1"
        { category := some ["biolink:Gene"], provided_by := none }).isSome = true ∧
    ((analyse_node [] wSt3 "X:1"
        { category := some ["biolink:Gene"], provided_by := none }).getD
          ([], wSt3)).2.node_catalog ≠ wSt3.node_catalog :=
  finalization_memoized_observation_unchecked [] wSt3 none none "X:1"
    { category := some ["biolink:Gene"], provided_by := none }
    ["biolink:Gene"] { nodes := [], edges := [], name := "w" }
    (by decide) (by decide) rfl

/-- C3 counterexample: the claim says a record observation after
finalization "fails with a precondition-violation error rather than
mutating the aggregation state".  On the concrete run below — register
node "X:1", finalize, then feed node "X:2" — `analyse_node` returns
normally (no error path is taken) and the node catalog is mutated. -/
theorem observation_after_finalization_mutates :
    (analyse_node
        ((analyse_node (newMKG [] "test").1 (newMKG [] "test").2 "X:1"
            { category := some ["biolink:Gene"], provided_by := none }).getD
          (newMKG [] "test")).1
        (get_graph_summary
          ((analyse_node (newMKG [] "test").1 (newMKG [] "test").2 "X:1"
              { category := some ["biolink:Gene"], provided_by := none }).getD
            (newMKG [] "test")).2 none).2
        "X:2" { category := some ["biolink:Gene"], provided_by := none }).isSome
      = true ∧
    ((analyse_node
        ((analyse_node (newMKG [] "test").1 (newMKG [] "test").2 "X:1"
            { category := some ["biolink:Gene"], provided_by := none }).getD
          (newMKG [] "test")).1
        (get_graph_summary
          ((analyse_node (newMKG [] "test").1 (newMKG [] "test").2 "X:1"
              { category := some ["biolink:Gene"], provided_by := none }).getD
            (newMKG [] "test")).2 none).2
        "X:2" { category := some ["biolink:Gene"], provided_by := none }).getD
          (newMKG [] "test")).2.node_catalog
      ≠ (get_graph_summary
          ((analyse_node (newMKG [] "test").1 (newMKG [] "test").2 "X:1"
              { category := some ["biolink:Gene"], provided_by := none }).getD
            (newMKG [] "test")).2 none).2.node_catalog := by
  decide

/-! ## Claim C7 -/

/-- C7: provenance normalization of the raw source "Monarch Initiative"
with no rewrite rule yields "monarch-initiative"; with rewrite rule
pattern "Initiative", empty substitution and added namespace "infores" it
yields "infores-monarch". -/
theorem process_infores_monarch_examples :
    processInfores none "Monarch Initiative" = "monarch-initiative" ∧
    processInfores (some ("Initiative", "", "infores")) "Monarch Initiative"
      = "infores-monarch" := by
  constructor <;> decide

/-! ## Claim C9 -/

/-- C9 (refuted on the code): the claim says two separately constructed
`MetaKnowledgeGraph` instances share no mutable state, and that a fresh
instance's category-index assignment is unaffected by categories
registered by earlier instances.  `_category_curie_map` is class-level, so
instance B of the process (constructed after instance A registered
"biolink:Gene") assigns "biolink:Disease" the index 2 and stores catalog
entry [2] for its node, while the same pass run in isolation assigns index
1 and stores [1]; B's registration also mutates the map A reads
(`get_category_curie`/`get_cid` go through the shared list). -/
theorem category_map_shared_across_instances :
    getKV runB.2.node_catalog "X:2" = some [2] ∧
    getKV runBIso.2.node_catalog "X:2" = some [1] ∧
    runB.1 ≠ runA.1 := by
  decide

/-! ## Claim C8 -/

/-- For a nonempty filter list the node loop's verdict is independent of
the running `pass_filter` flag: it admits iff every filter entry is
satisfied by the record. -/
theorem nodeFilterLoop_iff (node : List (String × RValue)) :
    ∀ (fs : List (String × FValue)) (pf : Bool), fs ≠ [] →
      (nodeFilterLoop node fs pf = true
        ↔ ∀ p ∈ fs, ∃ rv, getKV node p.1 = some rv ∧ matchFV p.2 rv = true) := by
  intro fs
  induction fs with
  | nil => intro pf hne; exact absurd rfl hne
  | cons hd tl ih =>
      intro pf _hne
      obtain ⟨k, v⟩ := hd
      rw [nodeFilterLoop]
      cases hkv : getKV node k with
      | none =>
          dsimp only
          constructor
          · intro hfalse; cases hfalse
          · intro hall
            obtain ⟨rv, hrv, _⟩ := hall (k, v) (List.mem_cons_self _ _)
            rw [hkv] at hrv
            cases hrv
      | some rv =>
          dsimp only
          by_cases hm : matchFV v rv = true
          · rw [if_pos hm]
            cases tl with
            | nil =>
                rw [nodeFilterLoop]
                constructor
                · intro _ p hp
                  rw [List.mem_singleton] at hp
                  subst hp
                  exact ⟨rv, hkv, hm⟩
                · intro _; rfl
            | cons h2 t2 =>
                rw [ih true (by simp)]
                constructor
                · intro hall p hp
                  rcases List.mem_cons.mp hp with rfl | hp'
                  · exact ⟨rv, hkv, hm⟩
                  · exact hall p hp'
                · intro hall p hp
                  exact hall p (List.mem_cons_of_mem _ hp)
          · rw [if_neg hm]
            constructor
            · intro hfalse; cases hfalse
            · intro hall
              obtain ⟨rv', hrv', hm'⟩ := hall (k, v) (List.mem_cons_self _ _)
              rw [hkv] at hrv'
              cases hrv'
              exact absurd hm' hm

/-- Same for the edge loop, whose two category keys are auto-satisfied. -/
theorem edgeFilterLoop_iff (edge : List (String × RValue)) :
    ∀ (fs : List (String × FValue)) (pf : Bool), fs ≠ [] →
      (edgeFilterLoop edge fs pf = true
        ↔ ∀ p ∈ fs, p.1 = "subject_category" ∨ p.1 = "object_category" ∨
            ∃ rv, getKV edge p.1 = some rv ∧ matchFV p.2 rv = true) := by
  intro fs
  induction fs with
  | nil => intro pf hne; exact absurd rfl hne
  | cons hd tl ih =>
      intro pf _hne
      obtain ⟨k, v⟩ := hd
      rw [edgeFilterLoop]
      by_cases hcatk : k = "subject_category" ∨ k = "object_category"
      · rw [if_pos hcatk]
        cases tl with
        | nil =>
            rw [edgeFilterLoop]
            constructor
            · intro _ p hp
              rw [List.mem_singleton] at hp
              subst hp
              rcases hcatk with h | h
              · exact Or.inl h
              · exact Or.inr (Or.inl h)
            · intro _; rfl
        | cons h2 t2 =>
            rw [ih true (by simp)]
            constructor
            · intro hall p hp
              rcases List.mem_cons.mp hp with rfl | hp'
              · rcases hcatk with h | h
                · exact Or.inl h
                · exact Or.inr (Or.inl h)
              · exact hall p hp'
            · intro hall p hp
              exact hall p (List.mem_cons_of_mem _ hp)
      · rw [if_neg hcatk]
        cases hkv : getKV edge k with
        | none =>
            dsimp only
            constructor
            · intro hfalse; cases hfalse
            · intro hall
              rcases hall (k, v) (List.mem_cons_self _ _) with h | h | ⟨rv, hrv, _⟩
              · exact absurd (Or.inl h) hcatk
              · exact absurd (Or.inr h) hcatk
              · rw [hkv] at hrv; cases hrv
        | some rv =>
            dsimp only
            by_cases hm : matchFV v rv = true
            · rw [if_pos hm]
              cases tl with
              | nil =>
                  rw [edgeFilterLoop]
                  constructor
                  · intro _ p hp
                    rw [List.mem_singleton] at hp
                    subst hp
                    exact Or.inr (Or.inr ⟨rv, hkv, hm⟩)
                  · intro _; rfl
              | cons h2 t2 =>
                  rw [ih true (by simp)]
                  constructor
                  · intro hall p hp
                    rcases List.mem_cons.mp hp with rfl | hp'
                    · exact Or.inr (Or.inr ⟨rv, hkv, hm⟩)
                    · exact hall p hp'
                  · intro hall p hp
                    exact hall p (List.mem_cons_of_mem _ hp)
            · rw [if_neg hm]
              constructor
              · intro hfalse; cases hfalse
              · intro hall
                rcases hall (k, v) (List.mem_cons_self _ _) with h | h | ⟨rv', hrv', hm'⟩
                · exact absurd (Or.inl h) hcatk
                · exact absurd (Or.inr h) hcatk
                · rw [hkv] at hrv'
                  cases hrv'
                  exact absurd hm' hm

/-- C8: `check_node_filter` admits a record iff every filter key is present
in the record with an intersecting (set-valued filter) or equal
(string-valued filter) value, so a record missing any filter key is
rejected and an empty filter set admits everything; `check_edge_filter`
applies the same rule except that the `subject_category` and
`object_category` keys are always treated as satisfied. -/
theorem check_filters_contract :
    (∀ (filters : List (String × FValue)) (node : List (String × RValue)),
      check_node_filter filters node = true
        ↔ ∀ p ∈ filters, ∃ rv, getKV node p.1 = some rv ∧ matchFV p.2 rv = true) ∧
    (∀ (filters : List (String × FValue)) (edge : List (String × RValue)),
      check_edge_filter filters edge = true
        ↔ ∀ p ∈ filters, p.1 = "subject_category" ∨ p.1 = "object_category" ∨
            ∃ rv, getKV edge p.1 = some rv ∧ matchFV p.2 rv = true) := by
  constructor
  · intro fs nd
    unfold check_node_filter
    by_cases he : fs.isEmpty
    · rw [if_pos he]
      rw [List.isEmpty_iff] at he
      subst he
      simp
    · rw [if_neg he]
      exact nodeFilterLoop_iff nd fs false (fun h => he (List.isEmpty_iff.mpr h))
  · intro fs ed
    unfold check_edge_filter
    by_cases he : fs.isEmpty
    · rw [if_pos he]
      rw [List.isEmpty_iff] at he
      subst he
      simp
    · rw [if_neg he]
      exact edgeFilterLoop_iff ed fs false (fun h => he (List.isEmpty_iff.mpr h))
